import Mathlib

/-!
Shallow embedding of `src/matcher.py` (class `Matcher`): a free-text query is
normalized and scored against every stored normalized question with
`difflib.SequenceMatcher(None, a, b).ratio()`; the best-scoring entry is
returned when its score reaches the configured cutoff.

Modelling conventions:
- Python strings are modelled as `List Char` (`Str`), restricted to their
  ASCII behaviour (`str.lower`, `str.strip`, and the regexes of
  `Matcher._preprocess` are ASCII-level operations on the inputs of interest).
- Python floats are modelled as exact rationals `ℚ`; `difflib` ratios are the
  exact values `2*M/T` that the floats approximate, and the default cutoff
  `0.55` is the exact rational `11/20`.
- `difflib.SequenceMatcher` is modelled without its `autojunk` heuristic,
  which only affects second sequences of length ≥ 200 and is irrelevant for
  the knowledge-base questions considered here.
- Exceptions (`KeyError`, `AttributeError`, `TypeError`, I/O and JSON errors)
  are modelled with `Except`; a raising method that has already mutated `self`
  returns the mutated state alongside the error.
-/

/-- Python strings, modelled as lists of characters. -/
abbrev Str := List Char

/-- ASCII whitespace as matched by Python's `\s` / `str.strip`:
space (32), tab (9), newline (10), carriage return (13),
vertical tab (11), form feed (12). -/
def pyIsSpace (c : Char) : Bool :=
  c.toNat = 32 || c.toNat = 9 || c.toNat = 10 || c.toNat = 13 ||
  c.toNat = 11 || c.toNat = 12

/-- A lowercase ASCII letter (`a`-`z`, codes 97-122) or ASCII digit
(`0`-`9`, codes 48-57): the non-whitespace characters kept by the regex
`[^a-z0-9\s]` of `Matcher._preprocess`. -/
def goodChar (c : Char) : Bool :=
  (97 ≤ c.toNat && c.toNat ≤ 122) || (48 ≤ c.toNat && c.toNat ≤ 57)

/-- A character kept by `re.sub(r"[^a-z0-9\s]", "", s)`: lowercase ASCII
letter, ASCII digit, or whitespace. -/
def allowedChar (c : Char) : Bool :=
  goodChar c || pyIsSpace c

/-- `str.lower` on ASCII: map `A`-`Z` (codes 65-90) to `a`-`z`. -/
def lowerChar (c : Char) : Char :=
  if 65 ≤ c.toNat && c.toNat ≤ 90 then Char.ofNat (c.toNat + 32) else c

/-- `str.strip`: drop leading and trailing whitespace. -/
def stripStr (l : Str) : Str :=
  ((l.dropWhile pyIsSpace).reverse.dropWhile pyIsSpace).reverse

/-- `re.sub(r"[^a-z0-9\s]", "", s)`: keep only letters, digits, whitespace. -/
def removePunct (l : Str) : Str :=
  l.filter allowedChar

/-- The scanner behind `re.sub(r"\s+", " ", s)`: emit a single space at the
start of each whitespace run and drop the run's remaining whitespace;
`inRun` records whether the current position is inside a run whose
replacement space was already emitted. -/
def collapseGo (inRun : Bool) : Str → Str
  | [] => []
  | c :: rest =>
      if pyIsSpace c then
        if inRun then collapseGo true rest else ' ' :: collapseGo true rest
      else c :: collapseGo false rest

/-- `re.sub(r"\s+", " ", s)`: replace every maximal whitespace run by a
single space. -/
def collapseWs (l : Str) : Str := collapseGo false l

/-- `Matcher._preprocess`: `(s or "").lower().strip()`, then remove
non-alphanumeric-non-whitespace characters, then collapse whitespace runs.
(`s or ""` is the identity on actual strings: `"" or ""` is `""`.) -/
def preprocess (l : Str) : Str :=
  collapseWs (removePunct (stripStr (l.map lowerChar)))

/-!
`difflib.SequenceMatcher(None, a, b)` with no junk: `find_longest_match`
returns the longest matching block, earliest in `a` then earliest in `b`;
`get_matching_blocks` recurses on the pieces left and right of that block;
`ratio` is `2*M/T` with `M` the total matched length and `T` the combined
length, and `1.0` when both strings are empty.
-/

/-- Length of the longest common prefix of two strings. -/
def commonLen : Str → Str → Nat
  | a :: as, b :: bs => if a = b then commonLen as bs + 1 else 0
  | _, _ => 0

/-- One row of the longest-matching-block scan: try every start `j` in `b`
against the fixed start `i` in `a`, keeping a candidate only on a strictly
larger match length. -/
def bestBlockJ (a b : Str) (i : Nat) : List Nat → Nat × Nat × Nat → Nat × Nat × Nat
  | [], acc => acc
  | j :: js, (bi, bj, bk) =>
      if bk < commonLen (a.drop i) (b.drop j) then
        bestBlockJ a b i js (i, j, commonLen (a.drop i) (b.drop j))
      else
        bestBlockJ a b i js (bi, bj, bk)

/-- All rows of the longest-matching-block scan, over every start `i` in
`a`. -/
def bestBlockI (a b : Str) : List Nat → Nat × Nat × Nat → Nat × Nat × Nat
  | [], acc => acc
  | i :: is2, (bi, bj, bk) =>
      bestBlockI a b is2 (bestBlockJ a b i (List.range b.length) (bi, bj, bk))

/-- The longest matching block `(i, j, k)` between `a` and `b`
(`a[i:i+k] == b[j:j+k]`, `k` maximal, then `i` minimal, then `j` minimal):
the block `find_longest_match` returns on junk-free input.  The scan keeps a
candidate only on a strictly larger size, so the first maximal block in
`(i, j)` lexicographic order wins. -/
def bestBlock (a b : Str) : Nat × Nat × Nat :=
  bestBlockI a b (List.range a.length) (0, 0, 0)

/-- Total length of matched characters across the matching blocks of
`get_matching_blocks`: the size of the longest matching block plus,
recursively, the matches in the pieces to its left and to its right.
Structural recursion on a fuel bound; each recursive call strictly
decreases the combined length of the two strings, so any fuel of at least
that combined length computes the true value (`totalMatchedF_stable`). -/
def totalMatchedF : Nat → Str → Str → Nat
  | 0, _, _ => 0
  | fuel + 1, a, b =>
    match bestBlock a b with
    | (i, j, k) =>
      if k = 0 then 0
      else
        totalMatchedF fuel (a.take i) (b.take j) + k +
          totalMatchedF fuel (a.drop (i + k)) (b.drop (j + k))

/-- `totalMatchedF` with the always-sufficient fuel. -/
def totalMatched (a b : Str) : Nat :=
  totalMatchedF (a.length + b.length) a b

/-- `SequenceMatcher.ratio()`: `2*M/T` where `M = totalMatched` and `T` is
the combined length; `1` when `T = 0` (both strings empty). -/
def score (a b : Str) : ℚ :=
  if a.length + b.length = 0 then 1
  else (2 * totalMatched a b : ℚ) / (a.length + b.length : ℚ)

/-!
The `Matcher` state and its operations.  `self.kb` holds the parsed JSON
value (a list whose items are objects in the well-formed case), and
`self.questions` / `self._questions_proc` are the derived caches built by
`Matcher._load_kb`.
-/

/-- A knowledge-base JSON object: the fields `_load_kb` and `find_best`
read.  A missing key is `none`; other keys are irrelevant to the program. -/
structure Entry where
  question : Option Str
  answer : Option Str
deriving DecidableEq

/-- An item of the parsed JSON list: a JSON object, or any other JSON value
(which has no `.get` method and cannot be subscripted by a string key). -/
inductive JVal where
  | obj : Entry → JVal
  | nonobj : JVal
deriving DecidableEq

/-- The Python exceptions the embedded code can raise. -/
inductive PyErr where
  | keyError
  | indexError
  | attributeError
  | typeError
  | ioError
  | jsonError
deriving DecidableEq

/-- The in-memory state of a `Matcher` instance: `self.kb`,
`self.questions`, `self._questions_proc`, `self.cutoff`. -/
structure MState where
  kb : List JVal
  questions : List Str
  questions_proc : List Str
  cutoff : ℚ
deriving DecidableEq

/-- A fresh instance before `__init__` runs `_load_kb`: the three data
attributes are not set yet (modelled as empty). -/
def MState.fresh (cutoff : ℚ) : MState :=
  { kb := [], questions := [], questions_proc := [], cutoff := cutoff }

/-- The external load source: unreadable file, syntactically malformed
JSON, or a parsed JSON list of items. -/
inductive Source where
  | unreadable
  | malformed
  | parsed : List JVal → Source
deriving DecidableEq

/-- `item.get("question", "")`: the default for a missing key, an
`AttributeError` for a non-object item. -/
def getQuestionKey : JVal → Except PyErr Str
  | JVal.obj e => Except.ok (e.question.getD [])
  | JVal.nonobj => Except.error PyErr.attributeError

/-- The list comprehension `[item.get("question", "") for item in self.kb]`:
left-to-right, aborting at the first failing item. -/
def mapGetQ : List JVal → Except PyErr (List Str)
  | [] => Except.ok []
  | v :: rest =>
    match getQuestionKey v with
    | Except.error e => Except.error e
    | Except.ok q =>
      match mapGetQ rest with
      | Except.error e => Except.error e
      | Except.ok qs => Except.ok (q :: qs)

/-- `Matcher._load_kb` (also the body of `reload_kb` and of `__init__`):
open and parse the source, assign `self.kb`, then build `self.questions`
and `self._questions_proc`.  An exception before the first assignment
leaves the state untouched; the `AttributeError` raised while building
`self.questions` happens after `self.kb` was already reassigned, so the
error carries that partially updated state. -/
def loadKb (src : Source) (st : MState) : Except (PyErr × MState) MState :=
  match src with
  | Source.unreadable => Except.error (PyErr.ioError, st)
  | Source.malformed => Except.error (PyErr.jsonError, st)
  | Source.parsed kb =>
    let st1 := { st with kb := kb }
    match mapGetQ kb with
    | Except.error e => Except.error (e, st1)
    | Except.ok qs =>
      Except.ok { st1 with questions := qs, questions_proc := qs.map preprocess }

/-- The scan loop of `find_best`: `for i, q_proc in enumerate(...)` with
`if score > best_score: best_score ... best_idx ...`, threading the index
and the accumulator `(best_idx, best_score)`.  `none` models
`best_idx == -1`. -/
def scanFrom (q : Str) : List Str → Nat → Option Nat × ℚ → Option Nat × ℚ
  | [], _, acc => acc
  | p :: rest, i, acc =>
      scanFrom q rest (i + 1)
        (if acc.2 < score q p then (some i, score q p) else acc)

/-- The whole scan of `find_best`, starting from
`best_idx = -1, best_score = 0.0`. -/
def scanBest (q : Str) (ps : List Str) : Option Nat × ℚ :=
  scanFrom q ps 0 (none, 0)

/-- `Matcher.find_best`: normalize the query, scan every stored normalized
question, and return `(answer, matched_question, score)`; the confident
branch reads `self.kb[best_idx]["answer"]` (a `KeyError` when the key is
absent, a `TypeError` when the item is not an object) and
`self.questions[best_idx]`. -/
def findBest (st : MState) (query : Str) : Except PyErr (Str × Str × ℚ) :=
  let q := preprocess query
  let r := scanBest q st.questions_proc
  match r.1 with
  | some i =>
    if st.cutoff ≤ r.2 then
      match st.kb[i]? with
      | some (JVal.obj e) =>
        match e.answer with
        | some a =>
          match st.questions[i]? with
          | some mq => Except.ok (a, mq, r.2)
          | none => Except.error PyErr.indexError
        | none => Except.error PyErr.keyError
      | some JVal.nonobj => Except.error PyErr.typeError
      | none => Except.error PyErr.indexError
    else
      match st.questions[i]? with
      | some mq => Except.ok ([], mq, r.2)
      | none => Except.error PyErr.indexError
  | none => Except.ok ([], [], r.2)

/-- `Matcher.get_answer_with_score`: a pass-through around `find_best`. -/
def getAnswerWithScore (st : MState) (query : Str) :
    Except PyErr (Str × Str × ℚ) :=
  findBest st query

/-- The maximum similarity score of the normalized query against a list of
stored normalized questions (`0` for an empty list; every score is
nonnegative, so this is the maximum of the scores when the list is
nonempty). -/
def maxScore (q : Str) : List Str → ℚ
  | [] => 0
  | p :: rest => max (score q p) (maxScore q rest)

/-- The answer field of a knowledge-base item, as `find_best` would read
it. -/
def answerOf : JVal → Option Str
  | JVal.obj e => e.answer
  | JVal.nonobj => none

/-- The question field of a knowledge-base item, defaulted to the empty
string as in `_load_kb`. -/
def questionOrDefault : JVal → Str
  | JVal.obj e => e.question.getD []
  | JVal.nonobj => []

/-- An item on which the confident branch of `find_best` succeeds: a JSON
object whose answer key is present. -/
def hasAnswer : JVal → Bool
  | JVal.obj e => e.answer.isSome
  | JVal.nonobj => false

/-- An item whose answer key is present and maps to a nonempty string. -/
def hasNonemptyAnswer : JVal → Bool
  | JVal.obj e =>
    match e.answer with
    | some a => !a.isEmpty
    | none => false
  | JVal.nonobj => false

/-- The index `find_best`'s scan settles on when the maximum score is
strictly positive: the first index whose score equals the maximum. -/
def bestIndex (q : Str) (ps : List Str) : Nat :=
  ps.findIdx fun p => decide (score q p = maxScore q ps)

/-!
Canonical forms of the normalizer output: every character is a lowercase
letter, a digit, or the single space `' '`, and no two adjacent characters
are both whitespace.  A second pass of `_preprocess` over such a string can
only strip its boundary spaces.
-/

/-- The canonical-form invariant of `collapseWs` output over allowed
characters. -/
def Canon (l : Str) : Prop :=
  (∀ c ∈ l, goodChar c = true ∨ c = ' ') ∧
  List.Chain' (fun a b => ¬(pyIsSpace a = true ∧ pyIsSpace b = true)) l

/-- The state of a matcher that loaded an empty knowledge base `[]`. -/
def stEmpty : MState :=
  { kb := [], questions := [], questions_proc := [], cutoff := 11/20 }

/-- The state of a matcher that loaded
`[{"question": "abc", "answer": "A"}]` with the default cutoff. -/
def stABC : MState :=
  { kb := [JVal.obj ⟨some "abc".toList, some "A".toList⟩],
    questions := ["abc".toList], questions_proc := ["abc".toList],
    cutoff := 11/20 }

/-- The state of a matcher that loaded
`[{"question": "Hi there?", "answer": "yo"}]`: the stored question text is
kept verbatim while the cache holds its normal form `"hi there"`. -/
def stHiThere : MState :=
  { kb := [JVal.obj ⟨some "Hi there?".toList, some "yo".toList⟩],
    questions := ["Hi there?".toList],
    questions_proc := ["hi there".toList], cutoff := 11/20 }

/-- The state of a matcher that loaded
`[{"question": "hi", "answer": "yo"}]` with the default cutoff. -/
def stHi : MState :=
  { kb := [JVal.obj ⟨some "hi".toList, some "yo".toList⟩],
    questions := ["hi".toList], questions_proc := ["hi".toList],
    cutoff := 11/20 }

/-- The state of a matcher that loaded `[{"question": "hi"}]` — a
well-formed object entry whose `"answer"` key is absent. -/
def stHiNoAnswer : MState :=
  { kb := [JVal.obj ⟨some "hi".toList, none⟩],
    questions := ["hi".toList], questions_proc := ["hi".toList],
    cutoff := 11/20 }

/-- The state of a matcher that loaded `[{"question": "a", "answer": "b"}]`,
used as the prior state of a reload attempt. -/
def stPrior : MState :=
  { kb := [JVal.obj ⟨some "a".toList, some "b".toList⟩],
    questions := ["a".toList], questions_proc := ["a".toList],
    cutoff := 11/20 }

/-- The state left behind by the failed reload of `C4_counterexample`: the
knowledge base already holds the new parsed value while both caches still
hold the prior entries. -/
def stMixed : MState :=
  { kb := [JVal.nonobj],
    questions := ["a".toList], questions_proc := ["a".toList],
    cutoff := 11/20 }

/-- The state of a matcher that loaded
`[{"question": "abcdefghijk", "answer": "A"}]` with the default cutoff,
used to exercise the exact-cutoff boundary. -/
def stBoundary : MState :=
  { kb := [JVal.obj ⟨some "abcdefghijk".toList, some "A".toList⟩],
    questions := ["abcdefghijk".toList],
    questions_proc := ["abcdefghijk".toList], cutoff := 11/20 }

/-- The state of a matcher that loaded two entries with identical questions
`"abc"` and distinct answers, with the default cutoff. -/
def stTieABC : MState :=
  { kb := [JVal.obj ⟨some "abc".toList, some "A".toList⟩,
           JVal.obj ⟨some "abc".toList, some "B".toList⟩],
    questions := ["abc".toList, "abc".toList],
    questions_proc := ["abc".toList, "abc".toList], cutoff := 11/20 }

/-- The state of a matcher that loaded two entries with identical questions
`"ab"` and distinct answers, with the default cutoff. -/
def stTieAB : MState :=
  { kb := [JVal.obj ⟨some "ab".toList, some "A".toList⟩,
           JVal.obj ⟨some "ab".toList, some "B".toList⟩],
    questions := ["ab".toList, "ab".toList],
    questions_proc := ["ab".toList, "ab".toList], cutoff := 11/20 }

/-!
The claims.  Concrete matcher states used by witnesses and counterexamples
are given as named `MState` values; each is the state reached by a
successful `_load_kb` of the knowledge base named in its doc comment.
-/

set_option maxRecDepth 10000

theorem commonLen_le_left : ∀ a b : Str, commonLen a b ≤ a.length := by
  intro a
  induction a with
  | nil => intro b; cases b <;> simp [commonLen]
  | cons c as ih =>
    intro b
    cases b with
    | nil => simp [commonLen]
    | cons d bs =>
      simp only [commonLen, List.length_cons]
      split
      · exact Nat.succ_le_succ (ih bs)
      · exact Nat.zero_le _

theorem commonLen_le_right : ∀ a b : Str, commonLen a b ≤ b.length := by
  intro a
  induction a with
  | nil => intro b; cases b <;> simp [commonLen]
  | cons c as ih =>
    intro b
    cases b with
    | nil => simp [commonLen]
    | cons d bs =>
      simp only [commonLen, List.length_cons]
      split
      · exact Nat.succ_le_succ (ih bs)
      · exact Nat.zero_le _

theorem bestBlockJ_bounds (a b : Str) (i : Nat) (hi : i < a.length) :
    ∀ (js : List Nat) (acc : Nat × Nat × Nat), (∀ j ∈ js, j < b.length) →
      acc.1 + acc.2.2 ≤ a.length → acc.2.1 + acc.2.2 ≤ b.length →
      (bestBlockJ a b i js acc).1 + (bestBlockJ a b i js acc).2.2 ≤ a.length ∧
      (bestBlockJ a b i js acc).2.1 + (bestBlockJ a b i js acc).2.2 ≤ b.length := by
  intro js
  induction js with
  | nil => intro acc _ h1 h2; exact ⟨h1, h2⟩
  | cons j js ih =>
    intro acc hjs h1 h2
    rcases acc with ⟨bi, bj, bk⟩
    have hjsb : ∀ j' ∈ js, j' < b.length := fun j' hj' => hjs j' (List.mem_cons_of_mem j hj')
    simp only [bestBlockJ]
    split
    · refine ih (i, j, commonLen (a.drop i) (b.drop j)) hjsb ?_ ?_
      · have := commonLen_le_left (a.drop i) (b.drop j)
        simp only [List.length_drop] at this
        dsimp only
        omega
      · have := commonLen_le_right (a.drop i) (b.drop j)
        have hj : j < b.length := hjs j (List.mem_cons_self j js)
        simp only [List.length_drop] at this
        dsimp only
        omega
    · exact ih (bi, bj, bk) hjsb h1 h2

theorem bestBlockI_bounds (a b : Str) :
    ∀ (is2 : List Nat) (acc : Nat × Nat × Nat), (∀ i ∈ is2, i < a.length) →
      acc.1 + acc.2.2 ≤ a.length → acc.2.1 + acc.2.2 ≤ b.length →
      (bestBlockI a b is2 acc).1 + (bestBlockI a b is2 acc).2.2 ≤ a.length ∧
      (bestBlockI a b is2 acc).2.1 + (bestBlockI a b is2 acc).2.2 ≤ b.length := by
  intro is2
  induction is2 with
  | nil => intro acc _ h1 h2; exact ⟨h1, h2⟩
  | cons i is2 ih =>
    intro acc his h1 h2
    rcases acc with ⟨bi, bj, bk⟩
    simp only [bestBlockI]
    have hi : i < a.length := his i (List.mem_cons_self i is2)
    have hrow := bestBlockJ_bounds a b i hi (List.range b.length) (bi, bj, bk)
      (fun j hj => List.mem_range.mp hj) h1 h2
    exact ih _ (fun i' hi' => his i' (List.mem_cons_of_mem i hi')) hrow.1 hrow.2

theorem bestBlock_bounds (a b : Str) :
    (bestBlock a b).1 + (bestBlock a b).2.2 ≤ a.length ∧
    (bestBlock a b).2.1 + (bestBlock a b).2.2 ≤ b.length := by
  unfold bestBlock
  exact bestBlockI_bounds a b (List.range a.length) (0, 0, 0)
    (fun i hi => List.mem_range.mp hi) (by simp) (by simp)

theorem totalMatchedF_stable :
    ∀ (n m : Nat) (a b : Str), a.length + b.length ≤ n →
      a.length + b.length ≤ m → totalMatchedF n a b = totalMatchedF m a b := by
  intro n
  induction n with
  | zero =>
    intro m a b hn _
    have ha : a = [] := List.length_eq_zero.mp (by omega)
    have hb : b = [] := List.length_eq_zero.mp (by omega)
    subst ha hb
    cases m with
    | zero => rfl
    | succ m => rfl
  | succ n ih =>
    intro m a b hn hm
    cases m with
    | zero =>
      have ha : a = [] := List.length_eq_zero.mp (by omega)
      have hb : b = [] := List.length_eq_zero.mp (by omega)
      subst ha hb
      rfl
    | succ m =>
      simp only [totalMatchedF]
      have hbnd := bestBlock_bounds a b
      rcases hbb : bestBlock a b with ⟨i, j, k⟩
      rw [hbb] at hbnd
      simp only [Prod.fst, Prod.snd] at hbnd
      by_cases hk : k = 0
      · simp [hk]
      · simp only [if_neg hk]
        have hk1 : 1 ≤ k := Nat.one_le_iff_ne_zero.mpr hk
        have h1 : (a.take i).length + (b.take j).length ≤ n := by
          simp only [List.length_take]
          omega
        have h1m : (a.take i).length + (b.take j).length ≤ m := by
          simp only [List.length_take]
          omega
        have h2 : (a.drop (i + k)).length + (b.drop (j + k)).length ≤ n := by
          simp only [List.length_drop]
          omega
        have h2m : (a.drop (i + k)).length + (b.drop (j + k)).length ≤ m := by
          simp only [List.length_drop]
          omega
        rw [ih m _ _ h1 h1m, ih m _ _ h2 h2m]

theorem score_nonneg (a b : Str) : 0 ≤ score a b := by
  unfold score
  split
  · norm_num
  · apply div_nonneg
    · positivity
    · positivity

theorem maxScore_nonneg (q : Str) (ps : List Str) : 0 ≤ maxScore q ps := by
  induction ps with
  | nil => simp [maxScore]
  | cons p rest ih => exact le_trans ih (le_max_right _ _)

theorem maxScore_mem (q : Str) (ps : List Str) (h : ps ≠ []) :
    ∃ p ∈ ps, score q p = maxScore q ps := by
  induction ps with
  | nil => exact absurd rfl h
  | cons p rest ih =>
    by_cases hr : rest = []
    · subst hr
      refine ⟨p, List.mem_cons_self _ _, ?_⟩
      simp [maxScore, max_eq_left (score_nonneg q p)]
    · rcases le_or_lt (maxScore q rest) (score q p) with hle | hlt
      · exact ⟨p, List.mem_cons_self _ _, by simp [maxScore, max_eq_left hle]⟩
      · obtain ⟨p', hp', he⟩ := ih hr
        refine ⟨p', List.mem_cons_of_mem _ hp', ?_⟩
        simp [maxScore, max_eq_right (le_of_lt hlt), he]

theorem scanFrom_snd (q : Str) (ps : List Str) :
    ∀ (i : Nat) (acc : Option Nat × ℚ), 0 ≤ acc.2 →
      (scanFrom q ps i acc).2 = max acc.2 (maxScore q ps) := by
  induction ps with
  | nil =>
    intro i acc hnn
    simp [scanFrom, maxScore, max_eq_left hnn]
  | cons p rest ih =>
    intro i acc hnn
    simp only [scanFrom, maxScore]
    have hstep : (if acc.2 < score q p then (some i, score q p) else acc).2 =
        max acc.2 (score q p) := by
      split
      · next hc => simp [max_eq_right (le_of_lt hc)]
      · next hc => simp [max_eq_left (not_lt.mp hc)]
    rw [ih (i + 1) _ (by rw [hstep]; exact le_trans hnn (le_max_left _ _)), hstep,
      max_assoc]

theorem scanFrom_of_le (q : Str) (ps : List Str) :
    ∀ (i : Nat) (acc : Option Nat × ℚ),
      maxScore q ps ≤ acc.2 → scanFrom q ps i acc = acc := by
  induction ps with
  | nil => intro i acc _; rfl
  | cons p rest ih =>
    intro i acc hle
    simp only [maxScore, max_le_iff] at hle
    simp only [scanFrom, if_neg (not_lt.mpr hle.1)]
    exact ih (i + 1) acc hle.2

theorem scanFrom_fst (q : Str) (ps : List Str) :
    ∀ (i : Nat) (acc : Option Nat × ℚ), 0 ≤ acc.2 →
      acc.2 < maxScore q ps →
      (scanFrom q ps i acc).1 =
        some (i + ps.findIdx fun p => decide (score q p = maxScore q ps)) := by
  induction ps with
  | nil =>
    intro i acc hnn hlt
    simp only [maxScore] at hlt
    exact absurd hlt (not_lt.mpr hnn)
  | cons p rest ih =>
    intro i acc hnn hlt
    rcases le_or_lt (maxScore q rest) (score q p) with hle | hgt
    · -- the head attains the maximum: the first update wins and sticks
      have hmax : maxScore q (p :: rest) = score q p := by
        simp [maxScore, max_eq_left hle]
      simp only [hmax] at hlt ⊢
      rw [List.findIdx_cons]
      simp only [decide_eq_true_eq, decide_true_eq_true]
      simp only [cond_true, Nat.add_zero]
      simp only [scanFrom, if_pos hlt]
      rw [scanFrom_of_le q rest (i + 1) (some i, score q p) hle]
    · -- the maximum is attained strictly later
      have hmax : maxScore q (p :: rest) = maxScore q rest := by
        simp [maxScore, max_eq_right (le_of_lt hgt)]
      simp only [hmax] at hlt ⊢
      rw [List.findIdx_cons]
      have hne : (decide (score q p = maxScore q rest)) = false := by
        simp [ne_of_lt hgt]
      rw [hne]
      simp only [cond_false]
      simp only [scanFrom]
      split
      · next hc =>
        rw [ih (i + 1) (some i, score q p) (score_nonneg q p) (by simpa using hgt)]
        simp only [Option.some.injEq]
        omega
      · next hc =>
        rw [ih (i + 1) acc hnn hlt]
        simp only [Option.some.injEq]
        omega

theorem scanBest_pos (q : Str) (ps : List Str) (h : 0 < maxScore q ps) :
    scanBest q ps = (some (bestIndex q ps), maxScore q ps) := by
  unfold scanBest bestIndex
  have h1 := scanFrom_fst q ps 0 (none, 0) (le_refl 0) (by simpa using h)
  have h2 := scanFrom_snd q ps 0 (none, 0) (le_refl 0)
  simp only [Nat.zero_add] at h1
  rw [Prod.ext_iff]
  refine ⟨by simpa using h1, ?_⟩
  simpa [max_eq_right (le_of_lt h)] using h2

theorem scanBest_of_zero (q : Str) (ps : List Str) (h : maxScore q ps = 0) :
    scanBest q ps = (none, 0) := by
  unfold scanBest
  exact scanFrom_of_le q ps 0 (none, 0) (by simp [h])

theorem bestIndex_lt (q : Str) (ps : List Str) (h : 0 < maxScore q ps) :
    bestIndex q ps < ps.length := by
  have hne : ps ≠ [] := by
    intro hnil
    rw [hnil] at h
    simp [maxScore] at h
  obtain ⟨p, hp, he⟩ := maxScore_mem q ps hne
  exact List.findIdx_lt_length_of_exists ⟨p, hp, by simpa using he⟩

theorem bestIndex_attains (q : Str) (ps : List Str) (h : bestIndex q ps < ps.length) :
    score q (ps.getD (bestIndex q ps) []) = maxScore q ps := by
  have := List.findIdx_getElem (w := h)
  simp only [decide_eq_true_eq] at this
  rwa [List.getD_eq_getElem?_getD, List.getElem?_eq_getElem h, Option.getD_some]

theorem bestIndex_le_of_attains (q : Str) (ps : List Str) (k : Nat)
    (hk : k < ps.length) (ha : score q (ps.getD k []) = maxScore q ps) :
    bestIndex q ps ≤ k := by
  by_contra hlt
  push_neg at hlt
  have := List.not_of_lt_findIdx hlt
  simp only [decide_eq_false_iff_not] at this
  rw [List.getD_eq_getElem?_getD, List.getElem?_eq_getElem hk, Option.getD_some] at ha
  exact this ha

theorem findBest_zero (st : MState) (query : Str)
    (hM : maxScore (preprocess query) st.questions_proc = 0) :
    findBest st query = Except.ok ([], [], 0) := by
  simp only [findBest, scanBest_of_zero _ _ hM]

theorem findBest_hit (st : MState) (query : Str) (e : Entry) (a mq : Str)
    (hM : 0 < maxScore (preprocess query) st.questions_proc)
    (hcut : st.cutoff ≤ maxScore (preprocess query) st.questions_proc)
    (hkb : st.kb[bestIndex (preprocess query) st.questions_proc]? =
      some (JVal.obj e))
    (ha : e.answer = some a)
    (hq : st.questions[bestIndex (preprocess query) st.questions_proc]? = some mq) :
    findBest st query =
      Except.ok (a, mq, maxScore (preprocess query) st.questions_proc) := by
  simp only [findBest, scanBest_pos _ _ hM, hkb, ha, hq, if_pos hcut]

theorem findBest_miss (st : MState) (query : Str) (mq : Str)
    (hM : 0 < maxScore (preprocess query) st.questions_proc)
    (hcut : maxScore (preprocess query) st.questions_proc < st.cutoff)
    (hq : st.questions[bestIndex (preprocess query) st.questions_proc]? = some mq) :
    findBest st query =
      Except.ok ([], mq, maxScore (preprocess query) st.questions_proc) := by
  simp only [findBest, scanBest_pos _ _ hM, hq, if_neg (not_le.mpr hcut)]

theorem collapseGo_mem :
    ∀ (l : Str) (flag : Bool), (∀ c ∈ l, allowedChar c = true) →
      ∀ c ∈ collapseGo flag l, goodChar c = true ∨ c = ' ' := by
  intro l
  induction l with
  | nil => intro flag _ c hc; simp [collapseGo] at hc
  | cons c rest ih =>
    intro flag hmem d hd
    have hrest : ∀ c ∈ rest, allowedChar c = true :=
      fun x hx => hmem x (List.mem_cons_of_mem c hx)
    by_cases hsp : pyIsSpace c = true
    · cases flag with
      | true =>
        rw [show collapseGo true (c :: rest) = collapseGo true rest
          from by simp [collapseGo, hsp]] at hd
        exact ih true hrest d hd
      | false =>
        rw [show collapseGo false (c :: rest) = ' ' :: collapseGo true rest
          from by simp [collapseGo, hsp]] at hd
        rcases List.mem_cons.mp hd with h | h
        · exact Or.inr h
        · exact ih true hrest d h
    · have hgc : goodChar c = true := by
        have := hmem c (List.mem_cons_self c rest)
        simp only [allowedChar, Bool.or_eq_true] at this
        rcases this with h | h
        · exact h
        · exact absurd h hsp
      rw [show collapseGo flag (c :: rest) = c :: collapseGo false rest
        from by cases flag <;> simp [collapseGo, hsp]] at hd
      rcases List.mem_cons.mp hd with h | h
      · exact Or.inl (h ▸ hgc)
      · exact ih false hrest d h

theorem collapseGo_head_true :
    ∀ (l : Str) (d : Char), (collapseGo true l).head? = some d →
      pyIsSpace d = false := by
  intro l
  induction l with
  | nil => intro d h; simp [collapseGo] at h
  | cons c rest ih =>
    intro d h
    by_cases hsp : pyIsSpace c = true
    · rw [show collapseGo true (c :: rest) = collapseGo true rest
        from by simp [collapseGo, hsp]] at h
      exact ih d h
    · rw [show collapseGo true (c :: rest) = c :: collapseGo false rest
        from by simp [collapseGo, hsp]] at h
      simp only [List.head?_cons, Option.some.injEq] at h
      subst h
      exact Bool.eq_false_iff.mpr hsp

theorem collapseGo_chain :
    ∀ (l : Str) (flag : Bool),
      List.Chain' (fun a b => ¬(pyIsSpace a = true ∧ pyIsSpace b = true))
        (collapseGo flag l) := by
  intro l
  induction l with
  | nil => intro flag; simp [collapseGo]
  | cons c rest ih =>
    intro flag
    by_cases hsp : pyIsSpace c = true
    · cases flag with
      | true =>
        rw [show collapseGo true (c :: rest) = collapseGo true rest
          from by simp [collapseGo, hsp]]
        exact ih true
      | false =>
        rw [show collapseGo false (c :: rest) = ' ' :: collapseGo true rest
          from by simp [collapseGo, hsp]]
        rw [List.chain'_cons']
        refine ⟨?_, ih true⟩
        intro y hy
        have := collapseGo_head_true rest y hy
        intro hcon
        rw [this] at hcon
        exact absurd hcon.2 (by simp)
    · rw [show collapseGo flag (c :: rest) = c :: collapseGo false rest
        from by cases flag <;> simp [collapseGo, hsp]]
      rw [List.chain'_cons']
      refine ⟨?_, ih false⟩
      intro y _ hcon
      exact absurd hcon.1 hsp

theorem collapseWs_canon (l : Str) (h : ∀ c ∈ l, allowedChar c = true) :
    Canon (collapseWs l) :=
  ⟨collapseGo_mem l false h, collapseGo_chain l false⟩

theorem canon_dropWhile (p : Char → Bool) :
    ∀ (l : Str), Canon l → Canon (l.dropWhile p) := by
  intro l
  induction l with
  | nil => intro h; simpa [List.dropWhile] using h
  | cons c rest ih =>
    intro ⟨hm, hch⟩
    by_cases hc : p c
    · rw [List.dropWhile_cons_of_pos hc]
      exact ih ⟨fun d hd => hm d (List.mem_cons_of_mem c hd), hch.tail⟩
    · rw [List.dropWhile_cons_of_neg hc]
      exact ⟨hm, hch⟩

theorem canon_reverse (l : Str) (h : Canon l) : Canon l.reverse := by
  obtain ⟨hm, hch⟩ := h
  refine ⟨fun c hc => hm c (List.mem_reverse.mp hc), ?_⟩
  rw [List.chain'_reverse]
  exact hch.imp (fun a b hab hcon => hab ⟨hcon.2, hcon.1⟩)

theorem canon_strip (l : Str) (h : Canon l) : Canon (stripStr l) := by
  unfold stripStr
  exact canon_reverse _ (canon_dropWhile _ _ (canon_reverse _ (canon_dropWhile _ _ h)))

theorem lowerChar_fix (c : Char) (h : goodChar c = true ∨ c = ' ') :
    lowerChar c = c := by
  rcases h with h | h
  · simp only [goodChar, Bool.or_eq_true, Bool.and_eq_true, decide_eq_true_eq] at h
    simp only [lowerChar]
    rw [if_neg]
    simp only [Bool.and_eq_true, decide_eq_true_eq, not_and]
    omega
  · subst h
    decide

theorem allowedChar_of_canon (c : Char) (h : goodChar c = true ∨ c = ' ') :
    allowedChar c = true := by
  rcases h with h | h
  · simp [allowedChar, h]
  · subst h
    decide

theorem good_not_space (c : Char) (hg : goodChar c = true) :
    pyIsSpace c = false := by
  simp only [goodChar, Bool.or_eq_true, Bool.and_eq_true, decide_eq_true_eq] at hg
  simp only [pyIsSpace, Bool.or_eq_false_iff, decide_eq_false_iff_not]
  omega

theorem collapseGo_fix :
    ∀ (l : Str), Canon l →
      collapseGo false l = l ∧
      ((∀ d, l.head? = some d → pyIsSpace d = false) → collapseGo true l = l) := by
  intro l
  induction l with
  | nil => exact fun _ => ⟨rfl, fun _ => rfl⟩
  | cons c rest ih =>
    intro ⟨hm, hch⟩
    have hcanon : Canon rest := ⟨fun d hd => hm d (List.mem_cons_of_mem c hd), hch.tail⟩
    by_cases hsp : pyIsSpace c = true
    · have hc : c = ' ' := by
        rcases hm c (List.mem_cons_self c rest) with hg | hg
        · rw [good_not_space c hg] at hsp
          exact absurd hsp (by simp)
        · exact hg
      have hrest_head : ∀ d, rest.head? = some d → pyIsSpace d = false := by
        intro d hd
        have hr := (List.chain'_cons'.mp hch).1 d hd
        by_contra hcon
        exact hr ⟨hsp, Bool.not_eq_false _ |>.mp hcon⟩
      constructor
      · rw [show collapseGo false (c :: rest) = ' ' :: collapseGo true rest
          from by simp [collapseGo, hsp]]
        rw [(ih hcanon).2 hrest_head, hc]
      · intro hhead
        have := hhead c (by simp)
        rw [this] at hsp
        exact absurd hsp (by simp)
    · constructor
      · rw [show collapseGo false (c :: rest) = c :: collapseGo false rest
          from by simp [collapseGo, hsp]]
        rw [(ih hcanon).1]
      · intro _
        rw [show collapseGo true (c :: rest) = c :: collapseGo false rest
          from by simp [collapseGo, hsp]]
        rw [(ih hcanon).1]

theorem collapseWs_fix (l : Str) (h : Canon l) : collapseWs l = l :=
  (collapseGo_fix l h).1

theorem preprocess_of_canon (l : Str) (h : Canon l) :
    preprocess l = stripStr l := by
  unfold preprocess
  rw [show l.map lowerChar = l from by
    rw [List.map_congr_left (fun c hc => lowerChar_fix c (h.1 c hc))]
    exact List.map_id l]
  have hs := canon_strip l h
  rw [show removePunct (stripStr l) = stripStr l from
    List.filter_eq_self.mpr (fun c hc => allowedChar_of_canon c (hs.1 c hc))]
  exact collapseWs_fix _ hs

theorem canon_preprocess (l : Str) : Canon (preprocess l) := by
  unfold preprocess
  exact collapseWs_canon _ (fun c hc => List.of_mem_filter hc)

/-- Evaluation helper: a score is `2*M/T` once the matched total and the
nonzero combined length are known. -/
theorem score_eval (a b : Str) (m : Nat) (hm : totalMatched a b = m)
    (hT : a.length + b.length ≠ 0) :
    score a b = (2 * m : ℚ) / (a.length + b.length : ℚ) := by
  unfold score
  rw [if_neg hT, hm]

theorem mapGetQ_ok_map :
    ∀ (kb : List JVal) (qs : List Str), mapGetQ kb = Except.ok qs →
      qs = kb.map questionOrDefault := by
  intro kb
  induction kb with
  | nil =>
    intro qs h
    simp only [mapGetQ, Except.ok.injEq] at h
    simp [← h]
  | cons v rest ih =>
    intro qs h
    cases v with
    | obj e =>
      simp only [mapGetQ, getQuestionKey] at h
      cases hr : mapGetQ rest with
      | error err => rw [hr] at h; exact absurd h (by simp)
      | ok qs' =>
        rw [hr] at h
        simp only [Except.ok.injEq] at h
        subst h
        simp only [List.map_cons, questionOrDefault, List.cons.injEq]
        exact ⟨trivial, ih qs' hr⟩
    | nonobj =>
      simp only [mapGetQ, getQuestionKey] at h
      exact absurd h (by simp)

theorem mapGetQ_obj (es : List Entry) :
    mapGetQ (es.map JVal.obj) =
      Except.ok (es.map (fun e => e.question.getD [])) := by
  induction es with
  | nil => rfl
  | cons e rest ih =>
    simp only [List.map_cons, mapGetQ, getQuestionKey, ih]

theorem loadKb_ok_inv (src : Source) (st st' : MState)
    (h : loadKb src st = Except.ok st') :
    ∃ kb qs, src = Source.parsed kb ∧ mapGetQ kb = Except.ok qs ∧
      st' = { kb := kb, questions := qs, questions_proc := qs.map preprocess,
              cutoff := st.cutoff } := by
  cases src with
  | unreadable => exact absurd h (by simp [loadKb])
  | malformed => exact absurd h (by simp [loadKb])
  | parsed kb =>
    refine ⟨kb, ?_⟩
    simp only [loadKb] at h
    cases hr : mapGetQ kb with
    | error err => rw [hr] at h; exact absurd h (by simp)
    | ok qs =>
      rw [hr] at h
      simp only [Except.ok.injEq] at h
      exact ⟨qs, rfl, rfl, h.symm⟩

theorem loadKb_parse_fail_state (kb : List JVal) (st : MState) (e : PyErr)
    (qerr : mapGetQ kb = Except.error e) :
    loadKb (Source.parsed kb) st = Except.error (e, { st with kb := kb }) := by
  simp only [loadKb, qerr]

theorem maxScore_zero_of_all (q : Str) (ps : List Str)
    (h : ∀ p ∈ ps, score q p = 0) : maxScore q ps = 0 := by
  induction ps with
  | nil => rfl
  | cons p rest ih =>
    simp only [maxScore, h p (List.mem_cons_self p rest),
      ih (fun p' hp' => h p' (List.mem_cons_of_mem p hp'))]
    simp

theorem getElem?_eq_some_getD {α : Type} (l : List α) (i : Nat) (d : α)
    (h : i < l.length) : l[i]? = some (l.getD i d) := by
  rw [List.getD_eq_getElem?_getD, List.getElem?_eq_getElem h]
  rfl

theorem getD_mem {α : Type} (l : List α) (i : Nat) (d : α)
    (h : i < l.length) : l.getD i d ∈ l := by
  rw [List.getD_eq_getElem?_getD, List.getElem?_eq_getElem h]
  exact List.getElem_mem h

/-- The confident branch with a missing answer key: `self.kb[best_idx]["answer"]`
raises `KeyError`. -/
theorem findBest_hit_keyError (st : MState) (query : Str) (e : Entry)
    (hM : 0 < maxScore (preprocess query) st.questions_proc)
    (hcut : st.cutoff ≤ maxScore (preprocess query) st.questions_proc)
    (hkb : st.kb[bestIndex (preprocess query) st.questions_proc]? =
      some (JVal.obj e))
    (ha : e.answer = none) :
    findBest st query = Except.error PyErr.keyError := by
  simp only [findBest, scanBest_pos _ _ hM, hkb, ha, if_pos hcut]

/-- C5: when both the normalized query and a stored normalized question are
the empty string, the similarity ratio computed for the pair is exactly 1
(the `T = 0` branch of `ratio`). -/
theorem C5_empty_vs_empty_score_one (q p : Str)
    (hq : preprocess q = []) (hp : preprocess p = []) :
    score (preprocess q) (preprocess p) = 1 := by
  rw [hq, hp]
  rfl

/-- Witness for C5: a punctuation-only query and a punctuation-only stored
question both normalize to the empty string and score exactly 1. -/
theorem C5_witness :
    preprocess "?!".toList = [] ∧ preprocess "...".toList = [] ∧
    score (preprocess "?!".toList) (preprocess "...".toList) = 1 :=
  ⟨rfl, rfl, C5_empty_vs_empty_score_one "?!".toList "...".toList rfl rfl⟩

/-- C8: after loading an empty knowledge base, `find_best` returns
`("", "", 0.0)` for every query. -/
theorem C8_empty_kb_returns_empty (q : Str) (st0 st' : MState)
    (h : loadKb (Source.parsed []) st0 = Except.ok st') :
    findBest st' q = Except.ok ([], [], 0) := by
  obtain ⟨kb, qs, hsrc, hq, hst⟩ := loadKb_ok_inv _ _ _ h
  injection hsrc with hkb
  subst hkb
  simp only [mapGetQ, Except.ok.injEq] at hq
  subst hq
  subst hst
  simp [findBest, scanBest, scanFrom]

/-- Witness for C8: loading an empty knowledge base into a fresh matcher
and querying it. -/
theorem C8_witness :
    loadKb (Source.parsed []) (MState.fresh (11/20)) = Except.ok stEmpty ∧
    findBest stEmpty "hello world".toList = Except.ok ([], [], 0) :=
  ⟨rfl, C8_empty_kb_returns_empty "hello world".toList (MState.fresh (11/20))
    stEmpty rfl⟩

/-- C9: after every successful load (construction and `reload_kb` both run
`_load_kb`), the caches are parallel to the knowledge base: equal lengths,
`questions` is the per-item question field defaulted to the empty string,
and `questions_proc` is its pointwise normalization.  `find_best` reads the
state and never writes it (it is a pure function of the state in this
embedding, as in the source), so the invariant is preserved by matching. -/
theorem C9_cache_parallel_after_load (src : Source) (st st' : MState)
    (h : loadKb src st = Except.ok st') :
    st'.questions.length = st'.kb.length ∧
    st'.questions_proc.length = st'.kb.length ∧
    st'.questions = st'.kb.map questionOrDefault ∧
    st'.questions_proc = st'.questions.map preprocess := by
  obtain ⟨kb, qs, hsrc, hq, hst⟩ := loadKb_ok_inv src st st' h
  subst hst
  have hqs := mapGetQ_ok_map kb qs hq
  subst hqs
  simp

/-- Witness for C9: loading a one-entry knowledge base reaches `stHiThere`,
whose caches satisfy the parallel invariant. -/
theorem C9_witness :
    loadKb (Source.parsed [JVal.obj ⟨some "Hi there?".toList, some "yo".toList⟩])
      (MState.fresh (11/20)) = Except.ok stHiThere ∧
    (stHiThere.questions.length = stHiThere.kb.length ∧
      stHiThere.questions_proc.length = stHiThere.kb.length ∧
      stHiThere.questions = stHiThere.kb.map questionOrDefault ∧
      stHiThere.questions_proc = stHiThere.questions.map preprocess) :=
  ⟨rfl, C9_cache_parallel_after_load
    (Source.parsed [JVal.obj ⟨some "Hi there?".toList, some "yo".toList⟩])
    (MState.fresh (11/20)) stHiThere rfl⟩

/-- C10: when every stored normalized question scores exactly 0 against the
normalized query, the scan never updates `best_idx` (a score must strictly
exceed the initial 0.0), so `find_best` returns `("", "", 0.0)` even on a
non-empty knowledge base. -/
theorem C10_all_zero_scores_surface_nothing (st : MState) (q : Str)
    (hkb : st.kb ≠ [])
    (hz : ∀ p ∈ st.questions_proc, score (preprocess q) p = 0) :
    findBest st q = Except.ok ([], [], 0) :=
  findBest_zero st q (maxScore_zero_of_all _ _ hz)

/-- Witness for C10: a query sharing no characters with the only stored
question scores 0 and surfaces nothing. -/
theorem C10_witness :
    stABC.kb ≠ [] ∧
    (∀ p ∈ stABC.questions_proc, score (preprocess "xyz".toList) p = 0) ∧
    findBest stABC "xyz".toList = Except.ok ([], [], 0) := by
  have hz : ∀ p ∈ stABC.questions_proc, score (preprocess "xyz".toList) p = 0 := by
    intro p hp
    have hp' : p = "abc".toList := by
      simpa [stABC] using hp
    subst hp'
    rw [show preprocess "xyz".toList = "xyz".toList from rfl,
      score_eval "xyz".toList "abc".toList 0 rfl (by decide)]
    norm_num
  exact ⟨by simp [stABC], hz,
    C10_all_zero_scores_surface_nothing stABC "xyz".toList (by simp [stABC]) hz⟩

/-- Counterexample for C3: `_preprocess` strips *before* removing
punctuation, so `". a"` (no boundary whitespace to strip) normalizes to
`" a"`, which still carries a leading space; a second pass normalizes it to
`"a"`.  The normalizer is therefore not idempotent. -/
theorem C3_counterexample :
    preprocess ". a".toList = " a".toList ∧
    preprocess (preprocess ". a".toList) = "a".toList ∧
    preprocess (preprocess ". a".toList) ≠ preprocess ". a".toList := by
  refine ⟨rfl, rfl, ?_⟩
  decide

/-- C3 (amended): a second pass of the normalizer only strips the boundary
whitespace the first pass can leave behind:
`normalize (normalize s) = strip (normalize s)` for every `s`; in
particular the normalizer is idempotent exactly on inputs whose normal form
has no leading or trailing whitespace. -/
theorem C3_normalize_twice_strips (s : Str) :
    preprocess (preprocess s) = stripStr (preprocess s) :=
  preprocess_of_canon (preprocess s) (canon_preprocess s)

/-- Witness for C3 (amended): at `". a"` the second pass equals the strip of
the first pass's output. -/
theorem C3_amended_witness :
    preprocess (preprocess ". a".toList) = stripStr (preprocess ". a".toList) :=
  C3_normalize_twice_strips ". a".toList

/-- Counterexample for C1: on a non-empty knowledge base whose every entry
scores exactly 0 against the query, `find_best` returns `("", "", 0.0)` —
the original question text of the best-scoring entry (`"abc"`, the only
entry, hence the maximum-score entry) is *not* surfaced, because the scan
records an index only on a strictly positive score improvement.  The claim
says the no-confidence branch returns the best entry's question text
whenever the knowledge base is non-empty. -/
theorem C1_counterexample :
    stABC.kb ≠ [] ∧
    maxScore (preprocess "xyz".toList) stABC.questions_proc = 0 ∧
    maxScore (preprocess "xyz".toList) stABC.questions_proc < stABC.cutoff ∧
    questionOrDefault (stABC.kb.getD 0 JVal.nonobj) = "abc".toList ∧
    "abc".toList ≠ ([] : Str) ∧
    findBest stABC "xyz".toList = Except.ok ([], [], 0) := by
  have hsc : score (preprocess "xyz".toList) "abc".toList = 0 := by
    rw [show preprocess "xyz".toList = "xyz".toList from rfl,
      score_eval "xyz".toList "abc".toList 0 rfl (by decide)]
    norm_num
  have hM : maxScore (preprocess "xyz".toList) stABC.questions_proc = 0 := by
    show maxScore (preprocess "xyz".toList) ["abc".toList] = 0
    simp only [maxScore]
    rw [hsc]
    simp
  refine ⟨by simp [stABC], hM, by rw [hM]; show (0:ℚ) < 11/20; norm_num,
    rfl, by decide, findBest_zero stABC "xyz".toList hM⟩

/-- The full case analysis of `find_best` on a consistently loaded state
whose items are objects carrying an answer: the all-zero case surfaces
nothing; a strictly positive maximum below the cutoff surfaces the first
maximum entry's question with an empty answer; a strictly positive maximum
at or above the cutoff returns that entry's answer. -/
theorem findBest_cases (st : MState) (q : Str)
    (hlen1 : st.questions.length = st.questions_proc.length)
    (hlen2 : st.kb.length = st.questions_proc.length)
    (hans : ∀ v ∈ st.kb, hasAnswer v = true) :
    (maxScore (preprocess q) st.questions_proc = 0 →
      findBest st q = Except.ok ([], [], 0)) ∧
    (0 < maxScore (preprocess q) st.questions_proc →
      maxScore (preprocess q) st.questions_proc < st.cutoff →
      findBest st q = Except.ok
        ([], st.questions.getD (bestIndex (preprocess q) st.questions_proc) [],
         maxScore (preprocess q) st.questions_proc)) ∧
    (0 < maxScore (preprocess q) st.questions_proc →
      st.cutoff ≤ maxScore (preprocess q) st.questions_proc →
      ∃ a, answerOf (st.kb.getD (bestIndex (preprocess q) st.questions_proc)
          JVal.nonobj) = some a ∧
        findBest st q = Except.ok
          (a, st.questions.getD (bestIndex (preprocess q) st.questions_proc) [],
           maxScore (preprocess q) st.questions_proc)) := by
  refine ⟨findBest_zero st q, ?_, ?_⟩
  · intro hM hcut
    have hi : bestIndex (preprocess q) st.questions_proc < st.questions_proc.length :=
      bestIndex_lt _ _ hM
    exact findBest_miss st q _ hM hcut
      (getElem?_eq_some_getD st.questions _ [] (by omega))
  · intro hM hcut
    have hi : bestIndex (preprocess q) st.questions_proc < st.questions_proc.length :=
      bestIndex_lt _ _ hM
    have hkb : st.kb[bestIndex (preprocess q) st.questions_proc]? =
        some (st.kb.getD (bestIndex (preprocess q) st.questions_proc) JVal.nonobj) :=
      getElem?_eq_some_getD st.kb _ JVal.nonobj (by omega)
    have hmem : st.kb.getD (bestIndex (preprocess q) st.questions_proc)
        JVal.nonobj ∈ st.kb :=
      getD_mem st.kb _ JVal.nonobj (by omega)
    have hha := hans _ hmem
    cases hv : st.kb.getD (bestIndex (preprocess q) st.questions_proc) JVal.nonobj with
    | nonobj => rw [hv] at hha; exact absurd hha (by simp [hasAnswer])
    | obj e =>
      rw [hv] at hha hkb
      simp only [hasAnswer, Option.isSome_iff_exists] at hha
      obtain ⟨a, ha⟩ := hha
      refine ⟨a, by simp [answerOf, ha], ?_⟩
      exact findBest_hit st q e a _ hM hcut hkb ha
        (getElem?_eq_some_getD st.questions _ [] (by omega))

/-- C1 (amended): for a consistently loaded state whose items are objects
carrying an answer, `find_best` behaves as claimed except in the all-zero
case: if the maximum score is 0 (in particular whenever the knowledge base
is empty) it returns `("", "", 0.0)` surfacing no candidate text; if the
maximum is strictly positive and below the cutoff it returns the empty
answer with the best entry's original question text and the score; if the
maximum is strictly positive and at least the cutoff it returns the best
entry's answer, its original question text, and the score.  The best entry
is the first entry attaining the maximum score. -/
theorem C1_find_best_output (st : MState) (q : Str)
    (hlen1 : st.questions.length = st.questions_proc.length)
    (hlen2 : st.kb.length = st.questions_proc.length)
    (hans : ∀ v ∈ st.kb, hasAnswer v = true) :
    (maxScore (preprocess q) st.questions_proc = 0 →
      findBest st q = Except.ok ([], [], 0)) ∧
    (0 < maxScore (preprocess q) st.questions_proc →
      maxScore (preprocess q) st.questions_proc < st.cutoff →
      findBest st q = Except.ok
        ([], st.questions.getD (bestIndex (preprocess q) st.questions_proc) [],
         maxScore (preprocess q) st.questions_proc)) ∧
    (0 < maxScore (preprocess q) st.questions_proc →
      st.cutoff ≤ maxScore (preprocess q) st.questions_proc →
      ∃ a, answerOf (st.kb.getD (bestIndex (preprocess q) st.questions_proc)
          JVal.nonobj) = some a ∧
        findBest st q = Except.ok
          (a, st.questions.getD (bestIndex (preprocess q) st.questions_proc) [],
           maxScore (preprocess q) st.questions_proc)) :=
  findBest_cases st q hlen1 hlen2 hans

/-- Witness for C1 (amended): querying `stHi` with `"hi"` scores 1, which is
strictly positive and at least the cutoff, so the confident branch returns
the entry's answer. -/
theorem C1_amended_witness :
    maxScore (preprocess "hi".toList) stHi.questions_proc = 1 ∧
    (∃ a, answerOf (stHi.kb.getD (bestIndex (preprocess "hi".toList)
        stHi.questions_proc) JVal.nonobj) = some a ∧
      findBest stHi "hi".toList = Except.ok
        (a, stHi.questions.getD (bestIndex (preprocess "hi".toList)
          stHi.questions_proc) [],
         maxScore (preprocess "hi".toList) stHi.questions_proc)) := by
  have hsc : score (preprocess "hi".toList) "hi".toList = 1 := by
    rw [show preprocess "hi".toList = "hi".toList from rfl,
      score_eval "hi".toList "hi".toList 2 rfl (by decide),
      show "hi".toList.length = 2 from rfl]
    norm_num
  have hM : maxScore (preprocess "hi".toList) stHi.questions_proc = 1 := by
    show maxScore (preprocess "hi".toList) ["hi".toList] = 1
    simp only [maxScore]
    rw [hsc]
    simp
  refine ⟨hM, ?_⟩
  exact (C1_find_best_output stHi "hi".toList rfl rfl (by decide)).2.2
    (by rw [hM]; norm_num) (by rw [hM]; show (11:ℚ)/20 ≤ 1; norm_num)

/-- Counterexample for C2: loading an entry without an `"answer"` key
succeeds (the loader defaults only the question, via `.get`), but querying
its question then takes the confident branch, where
`self.kb[best_idx]["answer"]` subscripts the missing key and raises
`KeyError` instead of returning an empty string. -/
theorem C2_counterexample :
    loadKb (Source.parsed [JVal.obj ⟨some "hi".toList, none⟩])
      (MState.fresh (11/20)) = Except.ok stHiNoAnswer ∧
    findBest stHiNoAnswer "hi".toList = Except.error PyErr.keyError := by
  refine ⟨rfl, ?_⟩
  have hsc : score (preprocess "hi".toList) "hi".toList = 1 := by
    rw [show preprocess "hi".toList = "hi".toList from rfl,
      score_eval "hi".toList "hi".toList 2 rfl (by decide),
      show "hi".toList.length = 2 from rfl]
    norm_num
  have hM : maxScore (preprocess "hi".toList) stHiNoAnswer.questions_proc = 1 := by
    show maxScore (preprocess "hi".toList) ["hi".toList] = 1
    simp only [maxScore]
    rw [hsc]
    simp
  have hMpos : 0 < maxScore (preprocess "hi".toList) stHiNoAnswer.questions_proc := by
    rw [hM]
    norm_num
  have hbi : bestIndex (preprocess "hi".toList) stHiNoAnswer.questions_proc = 0 :=
    Nat.lt_one_iff.mp (bestIndex_lt _ _ hMpos)
  exact findBest_hit_keyError stHiNoAnswer "hi".toList ⟨some "hi".toList, none⟩
    hMpos (by rw [hM]; show (11:ℚ)/20 ≤ 1; norm_num) (by rw [hbi]; rfl) rfl

/-- C2 (amended): loading any sequence of well-formed objects succeeds, a
missing `"question"` key defaults to the empty string, and `find_best`
returns normally on every query *provided every entry carries an
`"answer"` key*; a confident best entry without an `"answer"` key instead
raises `KeyError` (see the counterexample). -/
theorem C2_load_defaults_match_total (es : List Entry) (st : MState) (q : Str) :
    (loadKb (Source.parsed (es.map JVal.obj)) st = Except.ok
      { kb := es.map JVal.obj,
        questions := es.map (fun e => e.question.getD []),
        questions_proc := (es.map (fun e => e.question.getD [])).map preprocess,
        cutoff := st.cutoff }) ∧
    (∀ st', loadKb (Source.parsed (es.map JVal.obj)) st = Except.ok st' →
      (∀ e ∈ es, e.answer.isSome = true) →
      ∃ r, findBest st' q = Except.ok r) := by
  constructor
  · simp [loadKb, mapGetQ_obj]
  · intro st' hload hanses
    obtain ⟨kb, qs, hsrc, hq, hst⟩ := loadKb_ok_inv _ _ _ hload
    injection hsrc with hkb
    subst hkb
    have hqs := mapGetQ_ok_map _ _ hq
    subst hqs
    subst hst
    have hans : ∀ v ∈ (es.map JVal.obj), hasAnswer v = true := by
      intro v hv
      obtain ⟨e, he, hev⟩ := List.mem_map.mp hv
      subst hev
      simpa [hasAnswer] using hanses e he
    have hcases := findBest_cases
      { kb := es.map JVal.obj,
        questions := (es.map JVal.obj).map questionOrDefault,
        questions_proc := ((es.map JVal.obj).map questionOrDefault).map preprocess,
        cutoff := st.cutoff } q (by simp) (by simp) hans
    rcases lt_or_eq_of_le (maxScore_nonneg (preprocess q)
      (((es.map JVal.obj).map questionOrDefault).map preprocess)) with hM | hM
    · rcases lt_or_le (maxScore (preprocess q)
        (((es.map JVal.obj).map questionOrDefault).map preprocess)) st.cutoff with hc | hc
      · exact ⟨_, hcases.2.1 hM hc⟩
      · obtain ⟨a, _, hr⟩ := hcases.2.2 hM hc
        exact ⟨_, hr⟩
    · exact ⟨_, hcases.1 hM.symm⟩

/-- Witness for C2 (amended): a two-entry source in which the first entry
lacks the `"question"` key (defaulted to an empty string) and both entries
carry answers; loading succeeds and a query is answered normally. -/
theorem C2_amended_witness :
    (loadKb (Source.parsed [JVal.obj ⟨none, some "A".toList⟩,
        JVal.obj ⟨some "hi".toList, some "B".toList⟩]) (MState.fresh (11/20)) =
      Except.ok
        { kb := [JVal.obj ⟨none, some "A".toList⟩,
            JVal.obj ⟨some "hi".toList, some "B".toList⟩],
          questions := [[], "hi".toList],
          questions_proc := [[], "hi".toList], cutoff := 11/20 }) ∧
    (∃ r, findBest
      { kb := [JVal.obj ⟨none, some "A".toList⟩,
          JVal.obj ⟨some "hi".toList, some "B".toList⟩],
        questions := [[], "hi".toList],
        questions_proc := [[], "hi".toList], cutoff := (11/20 : ℚ) }
      "hello".toList = Except.ok r) := by
  have h := C2_load_defaults_match_total
    [⟨none, some "A".toList⟩, ⟨some "hi".toList, some "B".toList⟩]
    (MState.fresh (11/20)) "hello".toList
  refine ⟨h.1, ?_⟩
  exact h.2 _ h.1 (by decide)

/-- Counterexample for C4: reloading from a source that parses as `[1]` (a
list whose item is not an object) raises `AttributeError` while building
`self.questions` — *after* `self.kb` has already been reassigned.  The
resulting state mixes the new knowledge base with the prior caches, so a
failed reload does not leave the prior state untouched. -/
theorem C4_counterexample :
    loadKb (Source.parsed [JVal.nonobj]) stPrior =
      Except.error (PyErr.attributeError, stMixed) ∧
    stMixed.kb ≠ stPrior.kb ∧
    stMixed.questions = stPrior.questions ∧
    stMixed.questions_proc = stPrior.questions_proc := by
  refine ⟨rfl, ?_, rfl, rfl⟩
  decide

/-- C4 (amended): a reload from an unreadable or syntactically malformed
source fails before any assignment and leaves the state untouched; a
successful reload replaces the knowledge base and both caches consistently;
but a source that parses to a sequence containing a non-object item fails
in between, leaving the new knowledge base with the prior caches — a mix of
old and new state. -/
theorem C4_reload_outcomes (st : MState) :
    (loadKb Source.unreadable st = Except.error (PyErr.ioError, st)) ∧
    (loadKb Source.malformed st = Except.error (PyErr.jsonError, st)) ∧
    (∀ kb qs, mapGetQ kb = Except.ok qs →
      loadKb (Source.parsed kb) st = Except.ok
        { kb := kb, questions := qs, questions_proc := qs.map preprocess,
          cutoff := st.cutoff }) ∧
    (∀ kb e, mapGetQ kb = Except.error e →
      loadKb (Source.parsed kb) st = Except.error (e,
        { kb := kb, questions := st.questions,
          questions_proc := st.questions_proc, cutoff := st.cutoff })) := by
  refine ⟨rfl, rfl, ?_, ?_⟩
  · intro kb qs hq
    simp [loadKb, hq]
  · intro kb e hq
    simp [loadKb, hq]

/-- Witness for C4 (amended): the three reload outcomes at concrete
sources — a malformed source keeps `stPrior` intact, a well-formed
one-entry source replaces everything, and the `[1]`-shaped source of the
counterexample mixes states. -/
theorem C4_amended_witness :
    (loadKb Source.malformed stPrior = Except.error (PyErr.jsonError, stPrior)) ∧
    (loadKb (Source.parsed [JVal.obj ⟨some "hi".toList, some "yo".toList⟩])
      stPrior = Except.ok
        { kb := [JVal.obj ⟨some "hi".toList, some "yo".toList⟩],
          questions := ["hi".toList], questions_proc := ["hi".toList],
          cutoff := 11/20 }) ∧
    (loadKb (Source.parsed [JVal.nonobj]) stPrior =
      Except.error (PyErr.attributeError,
        { kb := [JVal.nonobj], questions := ["a".toList],
          questions_proc := ["a".toList], cutoff := 11/20 })) := by
  have h := C4_reload_outcomes stPrior
  refine ⟨h.2.1, ?_, ?_⟩
  · exact h.2.2.1 [JVal.obj ⟨some "hi".toList, some "yo".toList⟩]
      ["hi".toList] rfl
  · exact h.2.2.2 [JVal.nonobj] PyErr.attributeError rfl

theorem hasAnswer_of_hasNonemptyAnswer (v : JVal)
    (h : hasNonemptyAnswer v = true) : hasAnswer v = true := by
  cases v with
  | nonobj => simp [hasNonemptyAnswer] at h
  | obj e =>
    cases ha : e.answer with
    | none => rw [hasNonemptyAnswer, ha] at h; exact absurd h (by simp)
    | some a => simp [hasAnswer, ha]

theorem answer_ne_nil_of_hasNonemptyAnswer (v : JVal) (a : Str)
    (h : hasNonemptyAnswer v = true) (ha : answerOf v = some a) : a ≠ [] := by
  cases v with
  | nonobj => simp [hasNonemptyAnswer] at h
  | obj e =>
    cases hae : e.answer with
    | none => rw [hasNonemptyAnswer, hae] at h; exact absurd h (by simp)
    | some a' =>
      rw [answerOf, hae] at ha
      simp only [Option.some.injEq] at ha
      subst ha
      rw [hasNonemptyAnswer, hae] at h
      simp only [Bool.not_eq_eq_eq_not, Bool.not_false] at h
      intro hnil
      subst hnil
      simp [List.isEmpty] at h

/-- C6: the cutoff comparison `best_score >= self.cutoff` is inclusive.
With the cutoff configured to `0.55` (the exact rational `11/20`; the float
literal `0.55` and a computed ratio of exactly `11/20` round to the same
double, so the float comparison agrees), a best score of exactly `11/20`
takes the confident branch and returns the non-empty answer of the best
entry, while any strictly smaller best score — such as `0.549999` — returns
the empty answer. -/
theorem C6_cutoff_inclusive (st : MState) (q : Str)
    (hcut : st.cutoff = 11/20)
    (hlen1 : st.questions.length = st.questions_proc.length)
    (hlen2 : st.kb.length = st.questions_proc.length)
    (hne : st.kb ≠ [])
    (hans : ∀ v ∈ st.kb, hasNonemptyAnswer v = true) :
    (maxScore (preprocess q) st.questions_proc = 11/20 →
      ∃ a mq, a ≠ [] ∧ findBest st q = Except.ok (a, mq, 11/20)) ∧
    (maxScore (preprocess q) st.questions_proc < 11/20 →
      ∃ mq, findBest st q = Except.ok
        ([], mq, maxScore (preprocess q) st.questions_proc)) := by
  have hans' : ∀ v ∈ st.kb, hasAnswer v = true :=
    fun v hv => hasAnswer_of_hasNonemptyAnswer v (hans v hv)
  have hcases := findBest_cases st q hlen1 hlen2 hans'
  constructor
  · intro hM
    have hMpos : 0 < maxScore (preprocess q) st.questions_proc := by
      rw [hM]
      norm_num
    have hc : st.cutoff ≤ maxScore (preprocess q) st.questions_proc := by
      rw [hcut, hM]
    obtain ⟨a, ha, hr⟩ := hcases.2.2 hMpos hc
    have hmem : st.kb.getD (bestIndex (preprocess q) st.questions_proc)
        JVal.nonobj ∈ st.kb := by
      have hi := bestIndex_lt _ _ hMpos
      exact getD_mem st.kb _ JVal.nonobj (by omega)
    refine ⟨a, st.questions.getD (bestIndex (preprocess q) st.questions_proc) [],
      answer_ne_nil_of_hasNonemptyAnswer _ a (hans _ hmem) ha, ?_⟩
    rw [← hM]
    exact hr
  · intro hlt
    rcases lt_or_eq_of_le (maxScore_nonneg (preprocess q) st.questions_proc)
      with hM | hM
    · have hc : maxScore (preprocess q) st.questions_proc < st.cutoff := by
        rw [hcut]
        exact hlt
      exact ⟨_, hcases.2.1 hM hc⟩
    · refine ⟨[], ?_⟩
      rw [← hM]
      exact hcases.1 hM.symm

/-- Witness for C6: against `stBoundary`, the 29-character query
`"abcdefghijk012345678901234567"` scores exactly `2*11/40 = 11/20` and is
answered confidently, while the 30-character query
`"abcdefghijk0123456789012345678"` scores `22/41 < 11/20` and gets an empty
answer. -/
theorem C6_witness :
    maxScore (preprocess "abcdefghijk012345678901234567".toList)
      stBoundary.questions_proc = 11/20 ∧
    (∃ a mq, a ≠ [] ∧
      findBest stBoundary "abcdefghijk012345678901234567".toList =
        Except.ok (a, mq, 11/20)) ∧
    maxScore (preprocess "abcdefghijk0123456789012345678".toList)
      stBoundary.questions_proc < 11/20 ∧
    0 < maxScore (preprocess "abcdefghijk0123456789012345678".toList)
      stBoundary.questions_proc ∧
    (∃ mq, findBest stBoundary "abcdefghijk0123456789012345678".toList =
      Except.ok ([], mq,
        maxScore (preprocess "abcdefghijk0123456789012345678".toList)
          stBoundary.questions_proc)) := by
  have hM1 : maxScore (preprocess "abcdefghijk012345678901234567".toList)
      stBoundary.questions_proc = 11/20 := by
    show maxScore (preprocess "abcdefghijk012345678901234567".toList)
      ["abcdefghijk".toList] = 11/20
    rw [show preprocess "abcdefghijk012345678901234567".toList =
      "abcdefghijk012345678901234567".toList from rfl]
    simp only [maxScore]
    rw [score_eval "abcdefghijk012345678901234567".toList "abcdefghijk".toList
      11 rfl (by decide),
      show "abcdefghijk012345678901234567".toList.length = 29 from rfl,
      show "abcdefghijk".toList.length = 11 from rfl]
    rw [max_eq_left (by norm_num)]
    norm_num
  have hM2 : maxScore (preprocess "abcdefghijk0123456789012345678".toList)
      stBoundary.questions_proc = 22/41 := by
    show maxScore (preprocess "abcdefghijk0123456789012345678".toList)
      ["abcdefghijk".toList] = 22/41
    rw [show preprocess "abcdefghijk0123456789012345678".toList =
      "abcdefghijk0123456789012345678".toList from rfl]
    simp only [maxScore]
    rw [score_eval "abcdefghijk0123456789012345678".toList "abcdefghijk".toList
      11 rfl (by decide),
      show "abcdefghijk0123456789012345678".toList.length = 30 from rfl,
      show "abcdefghijk".toList.length = 11 from rfl]
    rw [max_eq_left (by norm_num)]
    norm_num
  have h := C6_cutoff_inclusive stBoundary
    "abcdefghijk012345678901234567".toList rfl rfl rfl (by decide) (by decide)
  have h' := C6_cutoff_inclusive stBoundary
    "abcdefghijk0123456789012345678".toList rfl rfl rfl (by decide) (by decide)
  refine ⟨hM1, h.1 hM1, by rw [hM2]; norm_num, by rw [hM2]; norm_num,
    h'.2 (by rw [hM2]; norm_num)⟩

/-- Counterexample for C7: entries 0 and 1 tie at the maximum score (both
score exactly 0 against `"xyz"`), yet `find_best` does not return the entry
with the lower index — it returns `("", "", 0.0)`, surfacing neither entry,
because a tied maximum of 0.0 never records an index. -/
theorem C7_counterexample :
    score (preprocess "xyz".toList) (stTieABC.questions_proc.getD 0 []) =
      maxScore (preprocess "xyz".toList) stTieABC.questions_proc ∧
    score (preprocess "xyz".toList) (stTieABC.questions_proc.getD 1 []) =
      maxScore (preprocess "xyz".toList) stTieABC.questions_proc ∧
    findBest stTieABC "xyz".toList = Except.ok ([], [], 0) ∧
    stTieABC.questions.getD 0 [] = "abc".toList ∧
    "abc".toList ≠ ([] : Str) := by
  have hsc : score (preprocess "xyz".toList) "abc".toList = 0 := by
    rw [show preprocess "xyz".toList = "xyz".toList from rfl,
      score_eval "xyz".toList "abc".toList 0 rfl (by decide)]
    norm_num
  have hM : maxScore (preprocess "xyz".toList) stTieABC.questions_proc = 0 := by
    show maxScore (preprocess "xyz".toList) ["abc".toList, "abc".toList] = 0
    simp only [maxScore]
    rw [hsc]
    simp
  refine ⟨?_, ?_, findBest_zero stTieABC "xyz".toList hM, rfl, by decide⟩
  · rw [hM]
    exact hsc
  · rw [hM]
    exact hsc

/-- C7 (amended): the tie-break is first-wins *provided the tied maximum is
strictly positive*: the scan uses a strictly-greater comparison, so the
settled index is at most every index attaining the maximum, and the
surfaced question text is that of the first maximum entry.  (When every
entry ties at score 0.0 no entry is surfaced at all — see the
counterexample.) -/
theorem C7_tie_break_first_wins (st : MState) (q : Str) (i j : Nat)
    (hlen1 : st.questions.length = st.questions_proc.length)
    (hlen2 : st.kb.length = st.questions_proc.length)
    (hans : ∀ v ∈ st.kb, hasAnswer v = true)
    (hij : i < j) (hjlen : j < st.questions_proc.length)
    (hi : score (preprocess q) (st.questions_proc.getD i []) =
      maxScore (preprocess q) st.questions_proc)
    (hj : score (preprocess q) (st.questions_proc.getD j []) =
      maxScore (preprocess q) st.questions_proc)
    (hM : 0 < maxScore (preprocess q) st.questions_proc) :
    bestIndex (preprocess q) st.questions_proc ≤ i ∧
    (∀ k, k < st.questions_proc.length →
      score (preprocess q) (st.questions_proc.getD k []) =
        maxScore (preprocess q) st.questions_proc →
      bestIndex (preprocess q) st.questions_proc ≤ k) ∧
    score (preprocess q)
      (st.questions_proc.getD (bestIndex (preprocess q) st.questions_proc) []) =
      maxScore (preprocess q) st.questions_proc ∧
    (∃ out, findBest st q = Except.ok out ∧
      out.2.1 = st.questions.getD (bestIndex (preprocess q) st.questions_proc) []) := by
  refine ⟨bestIndex_le_of_attains _ _ i (lt_trans hij hjlen) hi,
    fun k hk hsk => bestIndex_le_of_attains _ _ k hk hsk,
    bestIndex_attains _ _ (bestIndex_lt _ _ hM), ?_⟩
  have hcases := findBest_cases st q hlen1 hlen2 hans
  rcases lt_or_le (maxScore (preprocess q) st.questions_proc) st.cutoff with hc | hc
  · exact ⟨_, hcases.2.1 hM hc, rfl⟩
  · obtain ⟨a, _, hr⟩ := hcases.2.2 hM hc
    exact ⟨_, hr, rfl⟩

/-- Witness for C7 (amended): querying `"ab"` against `stTieAB` ties both
entries at the maximum score 1; the settled index is at most 0 and the
surfaced question is entry 0's. -/
theorem C7_amended_witness :
    bestIndex (preprocess "ab".toList) stTieAB.questions_proc ≤ 0 ∧
    (∀ k, k < stTieAB.questions_proc.length →
      score (preprocess "ab".toList) (stTieAB.questions_proc.getD k []) =
        maxScore (preprocess "ab".toList) stTieAB.questions_proc →
      bestIndex (preprocess "ab".toList) stTieAB.questions_proc ≤ k) ∧
    score (preprocess "ab".toList)
      (stTieAB.questions_proc.getD
        (bestIndex (preprocess "ab".toList) stTieAB.questions_proc) []) =
      maxScore (preprocess "ab".toList) stTieAB.questions_proc ∧
    (∃ out, findBest stTieAB "ab".toList = Except.ok out ∧
      out.2.1 = stTieAB.questions.getD
        (bestIndex (preprocess "ab".toList) stTieAB.questions_proc) []) := by
  have hsc : score (preprocess "ab".toList) "ab".toList = 1 := by
    rw [show preprocess "ab".toList = "ab".toList from rfl,
      score_eval "ab".toList "ab".toList 2 rfl (by decide),
      show "ab".toList.length = 2 from rfl]
    norm_num
  have hM : maxScore (preprocess "ab".toList) stTieAB.questions_proc = 1 := by
    show maxScore (preprocess "ab".toList) ["ab".toList, "ab".toList] = 1
    simp only [maxScore]
    rw [hsc]
    simp
  exact C7_tie_break_first_wins stTieAB "ab".toList 0 1 rfl rfl (by decide)
    (by norm_num) (by decide) (by rw [hM]; exact hsc) (by rw [hM]; exact hsc)
    (by rw [hM]; norm_num)
